import Mathlib

/-!
Verification of the GPUMD-Wizard `wizard/io.py` module: the extended-XYZ
codec (`dump_xyz`, `read_xyz`, `group_xyz`) and the PKA velocity rebalancer
(`set_pka`).

Strings are modelled as `List Char` (Python text), real-valued data as `ℚ`
where the code only moves numbers between text and memory, and as `ℝ` where
the code computes with `sqrt` (the rebalancer).  The Python float→text and
text→float conversions (`str`, `'{:.8e}'.format`, `float`) are external
library routines; they enter the model as explicit function parameters so
that theorems can state exactly which round-trip facts about them are used.
-/

namespace Wizard

/-- Python whitespace test used by `str.split()` / `str.strip()`. -/
def pySpace (c : Char) : Bool :=
  c == ' ' || c == '\t' || c == '\n' || c == '\r' || c == '\x0b' || c == '\x0c'

/-- Accumulator worker for `str.split()` (split on whitespace runs,
dropping empty chunks). The accumulator holds the current token reversed. -/
def wsTokAux : List Char → List Char → List (List Char)
  | acc, [] => if acc.isEmpty then [] else [acc.reverse]
  | acc, c :: rest =>
    if pySpace c then
      if acc.isEmpty then wsTokAux [] rest else acc.reverse :: wsTokAux [] rest
    else wsTokAux (c :: acc) rest

/-- Python `line.split()`: whitespace-separated tokens, no empties. -/
def wsTok (l : List Char) : List (List Char) := wsTokAux [] l

/-- Remove `sep` from the front of `l`, if it is there. -/
def stripLead : List Char → List Char → Option (List Char)
  | [], l => some l
  | _ :: _, [] => none
  | s :: ss, c :: cs => if s == c then stripLead ss cs else none

/-- First occurrence of the substring `sep` in `l`: returns the part before
the occurrence and the part after it. `none` when `sep` does not occur. -/
def findSub (sep : List Char) : List Char → Option (List Char × List Char)
  | [] => none
  | c :: rest =>
    match stripLead sep (c :: rest) with
    | some rem => some ([], rem)
    | none => (findSub sep rest).map fun p => (c :: p.1, p.2)

/-- Python `sep in s` (substring containment). -/
def hasSub (sep l : List Char) : Bool := (findSub sep l).isSome

/-- Python `s.split(sep)[0]`: everything before the first occurrence of
`sep`, or all of `s` when `sep` does not occur. -/
def splitIdx0 (sep l : List Char) : List Char :=
  match findSub sep l with
  | none => l
  | some (a, _) => a

/-- Python `s.split(sep)[1]`: the chunk between the first occurrence of
`sep` and the following one (or the end). `none` models the `IndexError`
raised when `sep` does not occur. -/
def splitIdx1 (sep l : List Char) : Option (List Char) :=
  match findSub sep l with
  | none => none
  | some (_, b) => some (splitIdx0 sep b)

/-- Fueled worker for Python `s.split(sep)` (all chunks). -/
def pySplitF (sep : List Char) : Nat → List Char → List (List Char)
  | 0, l => [l]
  | fuel + 1, l =>
    match findSub sep l with
    | none => [l]
    | some (a, b) => a :: pySplitF sep fuel b

/-- Python `s.split(sep)` with an explicit nonempty separator. -/
def pySplit (sep l : List Char) : List (List Char) := pySplitF sep (l.length + 1) l

/-- Python `s.strip()` on the left. -/
def dropLeadWs (l : List Char) : List Char := l.dropWhile pySpace

/-- Python `s.strip()` on the right. -/
def dropTrailWs (l : List Char) : List Char := (l.reverse.dropWhile pySpace).reverse

/-- Python `s.strip()`. -/
def pyStrip (l : List Char) : List Char := dropTrailWs (dropLeadWs l)

/-- Structural effectful map over `Except`, the loop shape of the Python
comprehensions and write loops: the first exception aborts. -/
def mapME {ε α β : Type} (f : α → Except ε β) : List α → Except ε (List β)
  | [] => .ok []
  | x :: xs =>
    match f x with
    | .error e => .error e
    | .ok y =>
      match mapME f xs with
      | .error e => .error e
      | .ok ys => .ok (y :: ys)

/-- Structural effectful map over `Option`. -/
def mapMO {α β : Type} (f : α → Option β) : List α → Option (List β)
  | [] => some []
  | x :: xs =>
    match f x with
    | none => none
    | some y =>
      match mapMO f xs with
      | none => none
      | some ys => some (y :: ys)

/-- Python `sep.join(parts)`. -/
def joinWith (sep : List Char) : List (List Char) → List Char
  | [] => []
  | [x] => x
  | x :: y :: xs => x ++ sep ++ joinWith sep (y :: xs)

/-- Single-space join, the common case in the writer. -/
def joinSp (parts : List (List Char)) : List Char := joinWith [' '] parts

/-- Decimal digit character for `d < 10`. -/
def digChar (d : Nat) : Char := Char.ofNat (48 + d)

/-- Fueled decimal rendering of a natural number (what Python `str(n)`
produces for a nonnegative integer). -/
def natDigsF : Nat → Nat → List Char
  | 0, _ => []
  | fuel + 1, n => if n < 10 then [digChar n] else natDigsF fuel (n / 10) ++ [digChar (n % 10)]

/-- Decimal rendering of a natural number. -/
def natChars (n : Nat) : List Char := natDigsF (n + 1) n

/-- Numeric value of a decimal digit character. -/
def digitVal : Char → Option Nat
  | c => if '0' ≤ c ∧ c ≤ '9' then some (c.toNat - 48) else none

/-- Accumulating digit-string evaluator. -/
def digitsValAux (acc : Nat) : List Char → Option Nat
  | [] => some acc
  | c :: cs =>
    match digitVal c with
    | some d => digitsValAux (10 * acc + d) cs
    | none => none

/-- Value of a nonempty all-digit string. -/
def digitsVal : List Char → Option Nat
  | [] => none
  | c :: cs => digitsValAux 0 (c :: cs)

/-- Sign-and-digits part of Python `int(s)`, applied after stripping. -/
def pyIntAux : List Char → Option Int
  | [] => none
  | c :: rest =>
    if c = '-' then (digitsVal rest).map fun n => -(n : Int)
    else if c = '+' then (digitsVal rest).map fun n => (n : Int)
    else (digitsVal (c :: rest)).map fun n => (n : Int)

/-- Python `int(s)`: strip whitespace, optional sign, decimal digits;
`none` models the `ValueError` raised on malformed input. -/
def pyInt (l : List Char) : Option Int := pyIntAux (pyStrip l)

/-- ASCII lower-casing of one character (what Python `str.lower` does on
the ASCII element symbols this file handles). -/
def pyLowerChar (c : Char) : Char :=
  if 'A' ≤ c ∧ c ≤ 'Z' then Char.ofNat (c.toNat + 32) else c

/-- ASCII upper-casing of one character. -/
def pyUpperChar (c : Char) : Char :=
  if 'a' ≤ c ∧ c ≤ 'z' then Char.ofNat (c.toNat - 32) else c

/-- Python `s.lower()` (ASCII fragment). -/
def pyLower (l : List Char) : List Char := l.map pyLowerChar

/-- Python `s.capitalize()`: first character upper-cased, the rest
lower-cased (ASCII fragment). -/
def pyCap : List Char → List Char
  | [] => []
  | c :: cs => pyUpperChar c :: cs.map pyLowerChar

/-- The species normalization performed by `read_xyz` (io.py line 80):
`symbol.lower().capitalize()`. -/
def normalizeSymbol (l : List Char) : List Char := pyCap (pyLower l)

/-- Well-formedness of an externally rendered float token: nonempty, and
free of whitespace, quotes and the letter `L`.  Python float renderings
(digits, `.`, `e`, `+`, `-`) satisfy this. -/
def tokenOk (l : List Char) : Prop :=
  l ≠ [] ∧ ∀ c ∈ l, pySpace c = false ∧ c ≠ '"' ∧ c ≠ 'L'

instance (l : List Char) : Decidable (tokenOk l) := by
  unfold tokenOk
  infer_instance

/-! ## Extended-XYZ codec (io.py: `dump_xyz`, `read_xyz`, `group_xyz`)

An ASE `Atoms` object is modelled by `Frame`: an index-aligned atom list
(`get_chemical_symbols` / `get_positions` / `get_masses`), a 3×3 cell and
three periodic flags.  Numeric values are `ℚ`; the external float↔text
conversions are function parameters (`fmt8` for `'{:>15.8e}'.format`,
`strRepr` for `str`, `parseF` for `float`). -/

/-- One structure snapshot as held by the writer (an ASE `Atoms`). Each
atom is (symbol, position, mass). -/
structure Frame where
  atoms : List (List Char × (ℚ × ℚ × ℚ) × ℚ)
  cell : (ℚ × ℚ × ℚ) × (ℚ × ℚ × ℚ) × (ℚ × ℚ × ℚ)
  pbc : Bool × Bool × Bool
  deriving DecidableEq

/-- `atoms.get_cell().reshape(-1)`: the nine cell entries, row-major. -/
def Frame.cellFlat (fr : Frame) : List ℚ :=
  [fr.cell.1.1, fr.cell.1.2.1, fr.cell.1.2.2,
   fr.cell.2.1.1, fr.cell.2.1.2.1, fr.cell.2.1.2.2,
   fr.cell.2.2.1, fr.cell.2.2.2.1, fr.cell.2.2.2.2]

/-- What `read_xyz` reconstructs per frame (`Atoms(symbols, positions,
cell, pbc)`); the cell is the list-of-rows value built on io.py line 76. -/
structure ReadFrame where
  species : List (List Char)
  positions : List (ℚ × ℚ × ℚ)
  cell : List (List ℚ)
  pbc : List Bool
  deriving DecidableEq

/-- Errors surfaced by the Python code: list/dict indexing, value
conversion, and an inaccessible fuel marker for the reader loop. -/
inductive Err where
  | indexError
  | valueError
  | keyError
  | fuel
  deriving DecidableEq

/-- The `pbc="` marker of io.py lines 46 and 69. -/
def pbcMarker : List Char := "pbc=\"".data

/-- The `Lattice="` marker of io.py lines 47 and 74. -/
def latMarker : List Char := "Lattice=\"".data

/-- The `" Properties=` marker of io.py line 74. -/
def propMarker : List Char := "\" Properties=".data

/-- The fixed property descriptor written by `dump_xyz` (io.py line 48). -/
def propPlain : List Char := "Properties=species:S:1:pos:R:3:mass:R:1".data

/-- The property descriptor written by `group_xyz` (io.py line 97),
newline included. -/
def propGrouped : List Char := "Properties=species:S:1:pos:R:3:mass:R:1:group:I:1\n".data

/-- `"T" if pbc_value else "F"` (io.py line 46). -/
def tfChars (b : Bool) : List Char := if b then ['T'] else ['F']

/-- The `pbc="T T F" ` fragment of the comment line. -/
def pbcPart (pbc : Bool × Bool × Bool) : List Char :=
  pbcMarker ++ joinSp [tfChars pbc.1, tfChars pbc.2.1, tfChars pbc.2.2] ++ "\" ".data

/-- The `Lattice="..." ` fragment of the comment line: nine `str`-rendered
cell entries joined by single spaces. -/
def latPart (strRepr : ℚ → List Char) (fr : Frame) : List Char :=
  latMarker ++ joinSp (fr.cellFlat.map strRepr) ++ "\" ".data

/-- `'{:2}'` formatting of the species symbol: left-justified, padded to
width 2 with spaces. -/
def pad2 (s : List Char) : List Char := s ++ List.replicate (2 - s.length) ' '

/-- `'{:>15.8e}'` field: the rendered float right-justified to width 15. -/
def pad15 (t : List Char) : List Char := List.replicate (15 - t.length) ' ' ++ t

/-- One atom line of `dump_xyz` (io.py line 54), trailing newline
included. -/
def atomLine (fmt8 : ℚ → List Char) (a : List Char × (ℚ × ℚ × ℚ) × ℚ) : List Char :=
  pad2 a.1 ++ [' '] ++ pad15 (fmt8 a.2.1.1) ++ [' '] ++ pad15 (fmt8 a.2.1.2.1) ++ [' '] ++
    pad15 (fmt8 a.2.1.2.2) ++ [' '] ++ pad15 (fmt8 a.2.2) ++ ['\n']

/-- `dump_xyz` (io.py lines 39–55) as the list of lines it appends to the
file; each line carries its trailing newline exactly as written, so this
list is what `readlines` recovers from a fresh file. -/
def dumpLines (fmt8 strRepr : ℚ → List Char) (fr : Frame) (comment : List Char) :
    List (List Char) :=
  (natChars fr.atoms.length ++ ['\n']) ::
    (pbcPart fr.pbc ++ latPart strRepr fr ++ propPlain ++ comment ++ ['\n']) ::
    fr.atoms.map (atomLine fmt8)

/-- The token list `comment.split("pbc=\"")[1].split("\"")[0].strip().split()`
of io.py lines 70–71, defined when the `pbc="` marker occurs. -/
def pbcTokens (comment : List Char) : List (List Char) :=
  match findSub pbcMarker comment with
  | some (_, after) => wsTok (pyStrip (splitIdx0 ['"'] (splitIdx0 pbcMarker after)))
  | none => []

/-- The periodic flags computed by `read_xyz` (io.py lines 69–73):
tokens mapped through `== "T"` when the marker is present, all-periodic
otherwise. -/
def pbcOfComment (comment : List Char) : List Bool :=
  if hasSub pbcMarker comment then (pbcTokens comment).map (fun t => t == ['T'])
  else [true, true, true]

/-- The stripped lattice string
`comment.split("Lattice=\"")[1].split("\" Properties=")[0].strip()` of
io.py line 74, `none` modelling the `IndexError` when the marker is
absent. -/
def latStrOfComment (comment : List Char) : Option (List Char) :=
  match findSub latMarker comment with
  | none => none
  | some (_, after) => some (pyStrip (splitIdx0 propMarker (splitIdx0 latMarker after)))

/-- `[list(map(float, row.split())) for row in lattice_str.split(" ")]`
(io.py line 75). -/
def latRows (parseF : List Char → Option ℚ) (latStr : List Char) : Option (List (List ℚ)) :=
  mapMO (fun row => mapMO parseF (wsTok row)) (pySplit [' '] latStr)

/-- The cell rebuild of io.py line 76: concatenating the nine singleton
rows three at a time; out-of-range accesses are `IndexError`s. -/
def cellOfRows (rows : List (List ℚ)) : Except Err (List (List ℚ)) :=
  match rows[0]?, rows[1]?, rows[2]?, rows[3]?, rows[4]?, rows[5]?,
        rows[6]?, rows[7]?, rows[8]? with
  | some l0, some l1, some l2, some l3, some l4, some l5, some l6, some l7, some l8 =>
    .ok [l0 ++ l1 ++ l2, l3 ++ l4 ++ l5, l6 ++ l7 ++ l8]
  | _, _, _, _, _, _, _, _, _ => .error .indexError

/-- The per-atom loop of `read_xyz` (io.py lines 77–82): pops `n` lines,
splits each, takes the first four tokens (fewer is a `ValueError`),
normalizes the symbol and parses the three coordinates. Returns the
symbols, the positions and the unconsumed lines. -/
def parseAtoms (parseF : List Char → Option ℚ) :
    Nat → List (List Char) →
    Except Err (List (List Char) × List (ℚ × ℚ × ℚ) × List (List Char))
  | 0, lines => .ok ([], [], lines)
  | _ + 1, [] => .error .indexError
  | n + 1, line :: rest =>
    match wsTok line with
    | t0 :: t1 :: t2 :: t3 :: _ =>
      match parseF t1, parseF t2, parseF t3 with
      | some x, some y, some z =>
        match parseAtoms parseF n rest with
        | .ok (syms, poss, rem) => .ok (normalizeSymbol t0 :: syms, (x, y, z) :: poss, rem)
        | .error e => .error e
      | _, _, _ => .error .valueError
    | _ => .error .valueError

/-- The `while lines:` loop of `read_xyz` (io.py lines 64–83), with fuel
for the outer recursion only; every call sites the fuel at
`lines.length + 1`, which a straightforward count shows is never
exhausted (each iteration consumes at least two lines). -/
def readFramesF (parseF : List Char → Option ℚ) :
    Nat → List (List Char) → Except Err (List ReadFrame)
  | _, [] => .ok []
  | 0, _ :: _ => .error .fuel
  | fuel + 1, countLine :: rest =>
    match pyInt countLine with
    | none => .error .valueError
    | some n =>
      match rest with
      | [] => .error .indexError
      | comment :: rest2 =>
        let pbc := pbcOfComment comment
        match latStrOfComment comment with
        | none => .error .indexError
        | some latStr =>
          match latRows parseF latStr with
          | none => .error .valueError
          | some rows =>
            match cellOfRows rows with
            | .error e => .error e
            | .ok cell =>
              match parseAtoms parseF n.toNat rest2 with
              | .error e => .error e
              | .ok (syms, poss, rem) =>
                match readFramesF parseF fuel rem with
                | .error e => .error e
                | .ok frames => .ok (⟨syms, poss, cell, pbc⟩ :: frames)

/-- `read_xyz` (io.py lines 57–84) on the `readlines` result. -/
def readXyz (parseF : List Char → Option ℚ) (lines : List (List Char)) :
    Except Err (List ReadFrame) :=
  readFramesF parseF (lines.length + 1) lines

/-- The per-atom classification of `group_xyz` (io.py lines 102–107),
with Python's short-circuit `or`: bounds are only indexed until a
comparison decides, and a missing bound is an `IndexError`. -/
def groupLineTag (p : ℚ × ℚ × ℚ) (minXyz maxXyz : List ℚ) : Except Err Nat :=
  match minXyz[0]? with
  | none => .error .indexError
  | some m0 =>
    if p.1 < m0 then .ok 0 else
    match minXyz[1]? with
    | none => .error .indexError
    | some m1 =>
      if p.2.1 < m1 then .ok 0 else
      match minXyz[2]? with
      | none => .error .indexError
      | some m2 =>
        if p.2.2 < m2 then .ok 0 else
        match maxXyz[0]? with
        | none => .error .indexError
        | some b0 =>
          if b0 ≤ p.1 then .ok 1 else
          match maxXyz[1]? with
          | none => .error .indexError
          | some b1 =>
            if b1 ≤ p.2.1 then .ok 1 else
            match maxXyz[2]? with
            | none => .error .indexError
            | some b2 =>
              if b2 ≤ p.2.2 then .ok 1 else .ok 2

/-- One atom line of `group_xyz`: the `dump_xyz` line with the group tag
spliced in before the newline. -/
def groupAtomLine (fmt8 : ℚ → List Char) (minXyz maxXyz : List ℚ)
    (a : List Char × (ℚ × ℚ × ℚ) × ℚ) : Except Err (List Char) :=
  (groupLineTag a.2.1 minXyz maxXyz).map fun tag =>
    pad2 a.1 ++ [' '] ++ pad15 (fmt8 a.2.1.1) ++ [' '] ++ pad15 (fmt8 a.2.1.2.1) ++ [' '] ++
      pad15 (fmt8 a.2.1.2.2) ++ [' '] ++ pad15 (fmt8 a.2.2) ++ [' '] ++ natChars tag ++ ['\n']

/-- The full output string `group_xyz` builds before its single
`f.write` (io.py lines 92–108). -/
def groupXyzOut (fmt8 strRepr : ℚ → List Char) (fr : Frame) (minXyz maxXyz : List ℚ) :
    Except Err (List Char) :=
  match mapME (groupAtomLine fmt8 minXyz maxXyz) fr.atoms with
  | .error e => .error e
  | .ok body =>
    .ok (natChars fr.atoms.length ++ ['\n'] ++ pbcPart fr.pbc ++ latPart strRepr fr ++
      propGrouped ++ body.flatten)

/-- File-system effects of one `group_xyz` call: `open(filename, 'w')`
truncates immediately; the single `f.write` happens only if the body was
built without an exception. -/
inductive FileOp where
  | truncate
  | write (content : List Char)
  deriving DecidableEq

/-- The effect trace of `group_xyz`. -/
def groupXyzRun (fmt8 strRepr : ℚ → List Char) (fr : Frame) (minXyz maxXyz : List ℚ) :
    List FileOp :=
  FileOp.truncate ::
    (match groupXyzOut fmt8 strRepr fr minXyz maxXyz with
     | .ok s => [FileOp.write s]
     | .error _ => [])

/-! ## PKA velocity rebalancer (io.py: `set_pka`)

`set_pka` parses its restart file into the dict `data` (io.py lines
116–137); `PkaAtom`/`RestartRec` model that parsed state.  `lead` is the
raw token list `atom[0:5]` (the mass column is its index-4 entry, kept
verbatim for the writer), `mass` is the numeric value
`float(atom[4])` the arithmetic uses, `vel` the parsed velocity and `grp`
the raw `atom[8]` token.  `header` and `box` are the first two lines as
read, trailing newlines included.  Velocities and masses are `ℝ` because
the update formula takes square roots. -/

/-- One parsed restart atom. -/
structure PkaAtom where
  lead : List (List Char)
  mass : ℝ
  vel : ℝ × ℝ × ℝ
  grp : List Char

/-- The parsed restart record. -/
structure RestartRec where
  header : List Char
  box : List Char
  atoms : List PkaAtom

/-- Python dict access `data['atom'][i]` for the integer-keyed dict with
keys `0..N-1`: a `KeyError` outside that range (`num - 1` can be negative
when the caller passes `num = 0`). -/
def dictGet (l : List PkaAtom) (i : Int) : Option PkaAtom :=
  if h : 0 ≤ i ∧ i.toNat < l.length then some (l.get ⟨i.toNat, h.2⟩) else none

/-- The target velocity of io.py lines 145–147:
`pow(2*energy/mass, 0.5) * angle_axis / pow(np.sum(angle**2), 0.5) / 10.18`
per axis (`pow(x, 0.5)` is the square root on the nonnegative inputs the
claims quantify over). -/
noncomputable def pkaV (energy mass : ℝ) (angle : ℝ × ℝ × ℝ) : ℝ × ℝ × ℝ :=
  (Real.sqrt (2 * energy / mass) * angle.1 /
      Real.sqrt (angle.1 ^ 2 + angle.2.1 ^ 2 + angle.2.2 ^ 2) / 10.18,
   Real.sqrt (2 * energy / mass) * angle.2.1 /
      Real.sqrt (angle.1 ^ 2 + angle.2.1 ^ 2 + angle.2.2 ^ 2) / 10.18,
   Real.sqrt (2 * energy / mass) * angle.2.2 /
      Real.sqrt (angle.1 ^ 2 + angle.2.1 ^ 2 + angle.2.2 ^ 2) / 10.18)

/-- The numpy row assignment `data['velocity'][k] = v`, limited to the
in-range indices that are reachable here. -/
def setVelAt (l : List PkaAtom) (k : Nat) (v : ℝ × ℝ × ℝ) : List PkaAtom :=
  match l[k]? with
  | some a => l.set k { a with vel := v }
  | none => l

/-- The velocity update of `set_pka` (io.py lines 144–160): compute the
target velocity, the per-axis deltas `mass*(v - old_v[target])/(N-1)`,
subtract `delta/mass_i` from every atom's velocity, then overwrite the
target's velocity with the computed triple.  The delta division is NumPy
float64 arithmetic: division by zero (N = 1) produces a non-exceptional
inf/NaN, so it is total here as well (Lean's junk value differs from
NumPy's, but every quantity it enters is overwritten before use). -/
noncomputable def setPkaVel (energy : ℝ) (angle : ℝ × ℝ × ℝ) (num : Int) (r : RestartRec) :
    Except Err (List PkaAtom) :=
  match dictGet r.atoms (num - 1) with
  | none => .error .keyError
  | some tgt =>
    let v := pkaV energy tgt.mass angle
    let nr : ℝ := (r.atoms.length : ℝ)
    let d : ℝ × ℝ × ℝ :=
      (tgt.mass * (v.1 - tgt.vel.1) / (nr - 1),
       tgt.mass * (v.2.1 - tgt.vel.2.1) / (nr - 1),
       tgt.mass * (v.2.2 - tgt.vel.2.2) / (nr - 1))
    let atoms1 := r.atoms.map fun a =>
      { a with vel := (a.vel.1 - d.1 / a.mass, a.vel.2.1 - d.2.1 / a.mass,
                       a.vel.2.2 - d.2.2 / a.mass) }
    .ok (setVelAt atoms1 (num - 1).toNat v)

/-- One output atom record of `set_pka` (io.py line 176 / 179 without the
mode-dependent tail): `'  '.join(atom[0:5])`, a space, the three
`str`-rendered velocity components joined by spaces, a space, and
`' '.join(group)` — which interleaves the characters of the raw group
token with spaces. -/
def pkaLine (strReprR : ℝ → List Char) (a : PkaAtom) : List Char :=
  joinWith [' ', ' '] a.lead ++ [' '] ++
    joinSp [strReprR a.vel.1, strReprR a.vel.2.1, strReprR a.vel.2.2] ++ [' '] ++
    joinSp (a.grp.map fun c => [c])

/-- The serialization loop of `set_pka` (io.py lines 172–180): `outstr`
starts as header + box and each atom record is appended, with the extra
trailing `' \n'` only in the `is_group` branch. -/
def setPkaSerial (strReprR : ℝ → List Char) (r : RestartRec) (atoms : List PkaAtom)
    (isGroup : Bool) : List Char :=
  if isGroup then
    atoms.foldl (fun acc a => acc ++ pkaLine strReprR a ++ [' ', '\n']) (r.header ++ r.box)
  else
    atoms.foldl (fun acc a => acc ++ pkaLine strReprR a) (r.header ++ r.box)

/-- `set_pka` end to end on a parsed record: velocity update then
serialization of the full record to the output file. -/
noncomputable def setPka (strReprR : ℝ → List Char) (energy : ℝ) (angle : ℝ × ℝ × ℝ)
    (num : Int) (r : RestartRec) (isGroup : Bool) : Except Err (List Char) :=
  (setPkaVel energy angle num r).map fun atoms => setPkaSerial strReprR r atoms isGroup

/-- Per-axis total momentum `sum_i mass_i * velocity_i` (io.py lines
139–141 and 166–169). -/
noncomputable def momSum (atoms : List PkaAtom) : ℝ × ℝ × ℝ :=
  ((atoms.map fun a => a.mass * a.vel.1).sum,
   (atoms.map fun a => a.mass * a.vel.2.1).sum,
   (atoms.map fun a => a.mass * a.vel.2.2).sum)

/-! ## Concrete instances used by the witnesses

`demoParse` is one concrete instance of the abstract `float` parser
parameter, covering the decimal forms appearing in the witness inputs;
the records/frames below are small concrete inputs. -/

/-- A concrete instance of the external float parser, defined on the
tokens the witness files contain. -/
def demoParse (l : List Char) : Option ℚ :=
  if l = ['0'] then some 0 else if l = ['1'] then some 1 else none

/-- A concrete instance of the external float renderers, adequate for
the values 0 and 1 used in the witness frames. -/
def demoRender (q : ℚ) : List Char := if q = 1 then ['1'] else ['0']

/-- A one-atom frame. -/
def frW : Frame :=
  { atoms := [("Fe".data, (0, 0, 0), 1)],
    cell := ((1, 0, 0), (0, 1, 0), (0, 0, 1)), pbc := (true, true, true) }

/-- A concrete restart atom. -/
def pkaAtomA : PkaAtom :=
  { lead := [['a'], ['a'], ['0'], ['0'], ['1']], mass := 1, vel := (0, 0, 0), grp := ['0'] }

/-- A second concrete restart atom. -/
def pkaAtomB : PkaAtom :=
  { lead := [['a'], ['a'], ['1'], ['1'], ['1']], mass := 1, vel := (0, 0, 0), grp := ['1'] }

/-- A one-atom restart record (the degenerate `N = 1` input). -/
def pkaRec1 : RestartRec :=
  { header := "1 atoms\n".data, box := "box\n".data, atoms := [pkaAtomA] }

/-- A two-atom restart record. -/
def pkaRec2 : RestartRec :=
  { header := "2 atoms\n".data, box := "box\n".data, atoms := [pkaAtomA, pkaAtomB] }

/-- A comment line without the `pbc="` marker. -/
def commentA : List Char := "Lattice=\"0 0 0 0 0 0 0 0 0\" Properties=x\n".data

/-- A comment line carrying `pbc="T F T"`. -/
def commentB : List Char := "pbc=\"T F T\" Lattice=\"0 0 0 0 0 0 0 0 0\" Properties=x\n".data

/-- The frame `read_xyz` produces from an empty frame under `commentA`. -/
def frA : ReadFrame :=
  { species := [], positions := [], cell := [[0, 0, 0], [0, 0, 0], [0, 0, 0]],
    pbc := [true, true, true] }

/-- The frame `read_xyz` produces from an empty frame under `commentB`. -/
def frB : ReadFrame :=
  { species := [], positions := [], cell := [[0, 0, 0], [0, 0, 0], [0, 0, 0]],
    pbc := [true, false, true] }


/-! ## Helper lemmas -/

/-- Appending in a left fold is flattening: the accumulator pattern of the
writers. -/
lemma foldl_append_eq_flatten {α β : Type} (g : α → List β) :
    ∀ (l : List α) (init : List β),
      l.foldl (fun acc a => acc ++ g a) init = init ++ (l.map g).flatten
  | [], init => by simp
  | a :: l, init => by
    simp [List.foldl_cons, foldl_append_eq_flatten g l, List.append_assoc]

/-- Sum after replacing one entry of a real list. -/
lemma sum_set_real (l : List ℝ) (k : Nat) (x : ℝ) (h : k < l.length) :
    (l.set k x).sum = l.sum - l[k] + x := by
  rw [List.sum_set, if_pos h]
  have hdk : (l.drop k).sum = l[k] + (l.drop (k + 1)).sum := by
    rw [List.drop_eq_getElem_cons h, List.sum_cons]
  have h2 : l.sum = (l.take k).sum + (l[k] + (l.drop (k + 1)).sum) := by
    rw [← hdk, ← List.sum_append, List.take_append_drop]
  rw [h2]; ring

/-- Subtracting a constant inside a mapped sum. -/
lemma sum_map_sub_const {α : Type} (f : α → ℝ) (c : ℝ) :
    ∀ l : List α, (l.map fun a => f a - c).sum = (l.map f).sum - l.length * c
  | [] => by simp
  | a :: l => by
    simp [sum_map_sub_const f c l]
    ring

/-- The momentum bookkeeping identity behind `set_pka`: removing `n`
uniform shares of the delta, replacing the target's momentum, and adding
the delta once more cancels exactly. -/
lemma rebal_alg (S m u v d n : ℝ) (hn : n - 1 ≠ 0) (hd : d = m * (v - u) / (n - 1)) :
    S - n * d - (m * u - d) + m * v = S := by
  have h : (n - 1) * d = m * (v - u) := by rw [hd]; field_simp
  linear_combination -h

/-- One axis of the `set_pka` conservation argument: after subtracting
`dx / mass_i` from every atom and overwriting entry `k` with the target
velocity, the mass-weighted sum is unchanged. -/
lemma axis_sum (atoms : List PkaAtom) (vc : PkaAtom → ℝ) (k : Nat) (hk : k < atoms.length)
    (hm : ∀ a ∈ atoms, a.mass ≠ 0) (hlen : ((atoms.length : ℝ) - 1) ≠ 0) (vx dx : ℝ)
    (hdx : dx = atoms[k].mass * (vx - vc atoms[k]) / ((atoms.length : ℝ) - 1)) :
    ((atoms.map fun a => a.mass * (vc a - dx / a.mass)).set k (atoms[k].mass * vx)).sum
      = (atoms.map fun a => a.mass * vc a).sum := by
  have hcong : atoms.map (fun a => a.mass * (vc a - dx / a.mass))
      = atoms.map (fun a => a.mass * vc a - dx) := by
    apply List.map_congr_left; intro a ha
    have hma := hm a ha; field_simp; ring
  rw [hcong, sum_set_real _ _ _ (by simpa using hk)]
  have hk2 : k < (atoms.map fun a => a.mass * vc a - dx).length := by
    simpa using hk
  have hgk2 : (atoms.map fun a => a.mass * vc a - dx).get ⟨k, hk2⟩
      = atoms[k].mass * vc atoms[k] - dx := by
    rw [List.get_eq_getElem, List.getElem_map]
  rw [List.get_eq_getElem] at hgk2
  rw [hgk2, sum_map_sub_const]
  exact rebal_alg _ _ _ _ _ _ hlen hdx

/-- The numpy row assignment preserves the atom count. -/
lemma length_setVelAt (l : List PkaAtom) (k : Nat) (v : ℝ × ℝ × ℝ) :
    (setVelAt l k v).length = l.length := by
  rw [setVelAt]
  cases h : l[k]? <;> simp

/-- A sum of three squares with one nonzero term is positive. -/
lemma sq_triple_pos (a1 a2 a3 : ℝ) (h : ¬(a1 = 0 ∧ a2 = 0 ∧ a3 = 0)) :
    0 < a1 ^ 2 + a2 ^ 2 + a3 ^ 2 := by
  by_contra hc
  push_neg at hc
  have h1 : a1 ^ 2 = 0 :=
    le_antisymm (by nlinarith [sq_nonneg a2, sq_nonneg a3]) (sq_nonneg a1)
  have h2 : a2 ^ 2 = 0 :=
    le_antisymm (by nlinarith [sq_nonneg a1, sq_nonneg a3]) (sq_nonneg a2)
  have h3 : a3 ^ 2 = 0 :=
    le_antisymm (by nlinarith [sq_nonneg a1, sq_nonneg a2]) (sq_nonneg a3)
  exact h ⟨(pow_eq_zero_iff two_ne_zero).mp h1, (pow_eq_zero_iff two_ne_zero).mp h2,
    (pow_eq_zero_iff two_ne_zero).mp h3⟩

/-- Inversion for the reader loop: when a parse starting at a
count/comment pair succeeds, the first returned frame carries exactly the
periodic flags `pbcOfComment` extracts from that comment line. -/
lemma readFramesF_ok_head_pbc (parseF : List Char → Option ℚ) (fuel : Nat)
    (c comment : List Char) (rest : List (List Char)) (fr : ReadFrame)
    (frames : List ReadFrame)
    (hok : readFramesF parseF (fuel + 1) (c :: comment :: rest) = .ok (fr :: frames)) :
    fr.pbc = pbcOfComment comment := by
  simp only [readFramesF] at hok
  split at hok
  · exact absurd hok (by simp)
  · split at hok
    · exact absurd hok (by simp)
    · split at hok
      · exact absurd hok (by simp)
      · split at hok
        · exact absurd hok (by simp)
        · split at hok
          · exact absurd hok (by simp)
          · split at hok
            · exact absurd hok (by simp)
            · simp only [Except.ok.injEq, List.cons.injEq] at hok
              rw [← hok.1]

/-! ## Helper lemmas for the codec round-trip -/

-- W-series: wsTok lemmas
lemma wsTokAux_token (t : List Char) (hws : ∀ c ∈ t, pySpace c = false) :
    ∀ (acc rest : List Char), wsTokAux acc (t ++ rest) = wsTokAux (t.reverse ++ acc) rest := by
  induction t with
  | nil => intro acc rest; simp
  | cons c cs ih =>
    intro acc rest
    have hc : pySpace c = false := hws c (by simp)
    rw [List.cons_append, wsTokAux, hc]
    simp only [Bool.false_eq_true, if_false]
    rw [ih (fun x hx => hws x (by simp [hx])) (c :: acc) rest]
    simp

lemma wsTokAux_flush (acc rest : List Char) (c0 : Char) (hacc : acc ≠ [])
    (hc : pySpace c0 = true) :
    wsTokAux acc (c0 :: rest) = acc.reverse :: wsTokAux [] rest := by
  rw [wsTokAux, hc]
  simp [List.isEmpty_iff, hacc]

lemma wsTokAux_skip (sp : List Char) (hsp : ∀ c ∈ sp, pySpace c = true) :
    ∀ rest, wsTokAux [] (sp ++ rest) = wsTokAux [] rest := by
  induction sp with
  | nil => intro rest; rfl
  | cons c cs ih =>
    intro rest
    rw [List.cons_append, wsTokAux, hsp c (by simp)]
    simp only [List.isEmpty_nil, if_true]
    exact ih (fun x hx => hsp x (by simp [hx])) rest

lemma wsTokAux_token_sep (t : List Char) (ht : t ≠ []) (hws : ∀ c ∈ t, pySpace c = false)
    (c0 : Char) (hc : pySpace c0 = true) (rest : List Char) :
    wsTokAux [] (t ++ c0 :: rest) = t :: wsTokAux [] rest := by
  rw [wsTokAux_token t hws [] (c0 :: rest)]
  rw [wsTokAux_flush _ _ c0 (by simpa using ht) hc]
  simp

lemma wsTokAux_token_only (t : List Char) (ht : t ≠ []) (hws : ∀ c ∈ t, pySpace c = false) :
    wsTokAux [] t = [t] := by
  have := wsTokAux_token t hws [] []
  rw [List.append_nil] at this
  rw [this, wsTokAux]
  simp [List.isEmpty_iff, ht]

lemma wsTok_joinSp (toks : List (List Char)) (hne : toks ≠ [])
    (h : ∀ t ∈ toks, t ≠ [] ∧ ∀ c ∈ t, pySpace c = false) :
    wsTok (joinSp toks) = toks := by
  induction toks with
  | nil => exact absurd rfl hne
  | cons t ts ih =>
    match ts with
    | [] =>
      exact wsTokAux_token_only t (h t (by simp)).1 (h t (by simp)).2
    | t2 :: ts2 =>
      rw [joinSp, joinWith, wsTok, List.append_assoc, List.singleton_append]
      rw [wsTokAux_token_sep t (h t (by simp)).1 (h t (by simp)).2 ' ' rfl]
      rw [show wsTokAux [] (joinWith [' '] (t2 :: ts2)) = wsTok (joinSp (t2 :: ts2)) from rfl]
      rw [ih (by simp) (fun x hx => h x (by simp [hx]))]

-- findSub / splitIdx0 series
lemma stripLead_self_append (s b : List Char) : stripLead s (s ++ b) = some b := by
  induction s with
  | nil => rfl
  | cons c cs ih => simp [stripLead, ih]

lemma findSub_self_append (s0 : Char) (ss b : List Char) :
    findSub (s0 :: ss) ((s0 :: ss) ++ b) = some ([], b) := by
  show findSub (s0 :: ss) (s0 :: (ss ++ b)) = some ([], b)
  rw [findSub]
  rw [show s0 :: (ss ++ b) = (s0 :: ss) ++ b from rfl, stripLead_self_append]

lemma stripLead_cons_of_ne (s0 x : Char) (ss l : List Char) (h : x ≠ s0) :
    stripLead (s0 :: ss) (x :: l) = none := by
  rw [stripLead]
  simp [Ne.symm h]

lemma findSub_cons_of_ne (s0 x : Char) (ss l : List Char) (h : x ≠ s0) :
    findSub (s0 :: ss) (x :: l) = (findSub (s0 :: ss) l).map fun p => (x :: p.1, p.2) := by
  rw [findSub, stripLead_cons_of_ne _ _ _ _ h]

lemma findSub_none_of_head (s0 : Char) (ss l : List Char) (h : ∀ x ∈ l, x ≠ s0) :
    findSub (s0 :: ss) l = none := by
  induction l with
  | nil => rfl
  | cons c cs ih =>
    rw [findSub_cons_of_ne _ _ _ _ (h c (by simp)), ih (fun x hx => h x (by simp [hx]))]
    rfl

lemma findSub_append (s0 : Char) (ss u b : List Char) (h : ∀ x ∈ u, x ≠ s0) :
    findSub (s0 :: ss) (u ++ (s0 :: ss) ++ b) = some (u, b) := by
  induction u with
  | nil => simpa using findSub_self_append s0 ss b
  | cons c cs ih =>
    rw [List.cons_append, List.cons_append, findSub_cons_of_ne _ _ _ _ (h c (by simp))]
    rw [show cs ++ (s0 :: ss) ++ b = cs ++ ((s0 :: ss) ++ b) from by simp, ← List.append_assoc]
    rw [ih (fun x hx => h x (by simp [hx]))]
    rfl

lemma splitIdx0_cons_of_ne (s0 x : Char) (ss l : List Char) (h : x ≠ s0) :
    splitIdx0 (s0 :: ss) (x :: l) = x :: splitIdx0 (s0 :: ss) l := by
  rw [splitIdx0, splitIdx0, findSub_cons_of_ne _ _ _ _ h]
  cases findSub (s0 :: ss) l <;> rfl

lemma splitIdx0_skip (s0 : Char) (ss u v : List Char) (h : ∀ x ∈ u, x ≠ s0) :
    splitIdx0 (s0 :: ss) (u ++ v) = u ++ splitIdx0 (s0 :: ss) v := by
  induction u with
  | nil => rfl
  | cons c cs ih =>
    rw [List.cons_append, splitIdx0_cons_of_ne _ _ _ _ (h c (by simp)),
      ih (fun x hx => h x (by simp [hx]))]
    rfl

lemma splitIdx0_of_append (s0 : Char) (ss u b : List Char) (h : ∀ x ∈ u, x ≠ s0) :
    splitIdx0 (s0 :: ss) (u ++ (s0 :: ss) ++ b) = u := by
  rw [splitIdx0, findSub_append _ _ _ _ h]

lemma splitIdx0_of_none (sep l : List Char) (h : findSub sep l = none) :
    splitIdx0 sep l = l := by
  rw [splitIdx0, h]

-- pySplit series
lemma pySplitF_nosep (sep l : List Char) (h : findSub sep l = none) :
    ∀ f, pySplitF sep f l = [l] := by
  intro f
  cases f with
  | zero => rfl
  | succ f => rw [pySplitF, h]

lemma joinSp_length_le (toks : List (List Char)) : toks.length ≤ (joinSp toks).length + 1 := by
  induction toks with
  | nil => simp
  | cons t ts ih =>
    match ts with
    | [] => simp
    | t2 :: ts2 =>
      rw [joinSp, joinWith] at *
      simp only [List.length_cons, List.length_append] at *
      omega

lemma pySplitF_join (toks : List (List Char)) (hne : toks ≠ [])
    (h : ∀ t ∈ toks, ∀ x ∈ t, x ≠ ' ') :
    ∀ f, toks.length ≤ f + 1 → pySplitF [' '] f (joinSp toks) = toks := by
  induction toks with
  | nil => exact absurd rfl hne
  | cons t ts ih =>
    intro f hf
    match ts with
    | [] =>
      exact pySplitF_nosep _ _ (findSub_none_of_head _ _ _ (h t (by simp))) f
    | t2 :: ts2 =>
      have hlen : 2 ≤ (t :: t2 :: ts2).length := by simp
      match f with
      | 0 => simp at hf
      | f + 1 =>
        rw [joinSp, joinWith, pySplitF]
        rw [show t ++ [' '] ++ joinWith [' '] (t2 :: ts2)
          = t ++ (' ' :: []) ++ joinWith [' '] (t2 :: ts2) from rfl]
        rw [findSub_append ' ' [] t (joinWith [' '] (t2 :: ts2)) (h t (by simp))]
        show t :: pySplitF [' '] f (joinWith [' '] (t2 :: ts2)) = t :: t2 :: ts2
        rw [show joinWith [' '] (t2 :: ts2) = joinSp (t2 :: ts2) from rfl]
        rw [ih (by simp) (fun x hx => h x (by simp [hx])) f (by simp at hf ⊢; omega)]

lemma pySplit_joinSp (toks : List (List Char)) (hne : toks ≠ [])
    (h : ∀ t ∈ toks, ∀ x ∈ t, x ≠ ' ') :
    pySplit [' '] (joinSp toks) = toks := by
  rw [pySplit]
  exact pySplitF_join toks hne h _ (Nat.le_succ_of_le (joinSp_length_le toks))

-- T-series: stripping does not change the whitespace tokens
lemma wsTokAux_append_trail (sp : List Char) (hsp : ∀ c ∈ sp, pySpace c = true) :
    ∀ (u acc : List Char), wsTokAux acc (u ++ sp) = wsTokAux acc u := by
  intro u
  induction u with
  | nil =>
    intro acc
    cases hacc : acc.isEmpty with
    | true =>
      rw [List.nil_append]
      rw [List.isEmpty_iff] at hacc
      subst hacc
      have hskip := wsTokAux_skip sp hsp []
      rw [List.append_nil] at hskip
      rw [hskip]
    | false =>
      match acc, hacc with
      | a :: as, _ =>
        match sp with
        | [] => rfl
        | c :: sp2 =>
          rw [List.nil_append, wsTokAux_flush (a :: as) sp2 c (by simp) (hsp c (by simp))]
          have hskip := wsTokAux_skip sp2 (fun x hx => hsp x (by simp [hx])) []
          rw [List.append_nil] at hskip
          rw [hskip]
          rfl
  | cons x u2 ih =>
    intro acc
    rw [List.cons_append, wsTokAux, wsTokAux]
    cases hx : pySpace x with
    | true =>
      simp only [if_true]
      cases hacc : acc.isEmpty <;> simp only [if_true, Bool.false_eq_true, if_false] <;>
        rw [ih]
    | false =>
      simp only [Bool.false_eq_true, if_false]
      rw [ih]

lemma wsTok_dropLeadWs (l : List Char) : wsTok (dropLeadWs l) = wsTok l := by
  conv_rhs => rw [← List.takeWhile_append_dropWhile (p := pySpace) (l := l)]
  rw [wsTok, wsTok, dropLeadWs]
  rw [wsTokAux_skip _ (fun c hc => List.mem_takeWhile_imp hc) _]

lemma wsTok_dropTrailWs (l : List Char) : wsTok (dropTrailWs l) = wsTok l := by
  conv_rhs =>
    rw [← List.reverse_reverse l,
      ← List.takeWhile_append_dropWhile (p := pySpace) (l := l.reverse),
      List.reverse_append]
  rw [wsTok, wsTok, dropTrailWs]
  rw [wsTokAux_append_trail _ (fun c hc => List.mem_takeWhile_imp (List.mem_reverse.mp hc)) _]

lemma wsTok_pyStrip (l : List Char) : wsTok (pyStrip l) = wsTok l := by
  rw [pyStrip, wsTok_dropTrailWs, wsTok_dropLeadWs]

-- S-series: strip is the identity on strings with non-space ends
lemma dropLeadWs_eq_self (l : List Char) (h : ∀ c, l.head? = some c → pySpace c = false) :
    dropLeadWs l = l := by
  match l with
  | [] => rfl
  | c :: cs =>
    rw [dropLeadWs, List.dropWhile_cons, h c rfl]
    simp

lemma dropTrailWs_eq_self (l : List Char) (h : ∀ c, l.getLast? = some c → pySpace c = false) :
    dropTrailWs l = l := by
  rw [dropTrailWs]
  have h2 : ∀ c, l.reverse.head? = some c → pySpace c = false := by
    intro c hc
    exact h c (by rwa [List.head?_reverse] at hc)
  match hrev : l.reverse with
  | [] =>
    have : l = [] := by simpa using congrArg List.reverse hrev.symm
    simp [this]
  | c :: cs =>
    rw [List.dropWhile_cons, h2 c (by rw [hrev]; rfl)]
    simp only [Bool.false_eq_true, if_false]
    rw [← hrev, List.reverse_reverse]

lemma pyStrip_eq_self (l : List Char)
    (hh : ∀ c, l.head? = some c → pySpace c = false)
    (hl : ∀ c, l.getLast? = some c → pySpace c = false) :
    pyStrip l = l := by
  rw [pyStrip, dropLeadWs_eq_self l hh, dropTrailWs_eq_self l hl]

-- head / last of single-space joins
lemma joinSp_head? (t : List Char) (ts : List (List Char)) (ht : t ≠ []) :
    (joinSp (t :: ts)).head? = t.head? := by
  match ts with
  | [] => rfl
  | t2 :: ts2 =>
    rw [joinSp, joinWith]
    match t, ht with
    | c :: cs, _ => rfl

lemma joinSp_ne_nil (t : List Char) (ts : List (List Char)) (ht : t ≠ []) :
    joinSp (t :: ts) ≠ [] := by
  intro hcon
  have := joinSp_head? t ts ht
  rw [hcon] at this
  match t, ht with
  | c :: cs, _ => exact Option.noConfusion this

lemma joinSp_getLast? (toks : List (List Char)) (h : ∀ t ∈ toks, t ≠ []) (t0 : List Char)
    (h0 : toks.getLast? = some t0) : (joinSp toks).getLast? = t0.getLast? := by
  induction toks with
  | nil => exact Option.noConfusion h0
  | cons t ts ih =>
    match ts with
    | [] =>
      have : t = t0 := by simpa using h0
      rw [joinSp, joinWith, this]
    | t2 :: ts2 =>
      rw [joinSp, joinWith]
      rw [show joinWith [' '] (t2 :: ts2) = joinSp (t2 :: ts2) from rfl]
      have hne2 : joinSp (t2 :: ts2) ≠ [] := joinSp_ne_nil t2 ts2 (h t2 (by simp))
      have h0' : (t2 :: ts2).getLast? = some t0 := by
        rw [← h0, List.getLast?_cons_cons]
      rw [List.getLast?_append_of_ne_nil _ hne2]
      exact ih (fun x hx => h x (by simp [hx])) h0'

-- Digit-string lemmas: the atom-count line round-trips
lemma digitsValAux_append (l1 l2 : List Char) :
    ∀ acc, digitsValAux acc (l1 ++ l2)
      = match digitsValAux acc l1 with
        | some m => digitsValAux m l2
        | none => none := by
  induction l1 with
  | nil => intro acc; rfl
  | cons c cs ih =>
    intro acc
    rw [List.cons_append, digitsValAux, digitsValAux]
    cases digitVal c with
    | none => rfl
    | some d => exact ih (10 * acc + d)

lemma digChar_facts : ∀ d, d < 10 → digitVal (digChar d) = some d ∧
    pySpace (digChar d) = false ∧ digChar d ≠ '-' ∧ digChar d ≠ '+' := by decide

lemma natDigsF_ok : ∀ f n, n < f →
    ∀ acc, digitsValAux acc (natDigsF f n) = some (acc * 10 ^ (natDigsF f n).length + n) := by
  intro f
  induction f with
  | zero => intro n h; omega
  | succ f ih =>
    intro n h acc
    rw [natDigsF]
    by_cases h10 : n < 10
    · rw [if_pos h10]
      simp only [digitsValAux, (digChar_facts n h10).1]
      simp
      omega
    · rw [if_neg h10]
      have hdn : n / 10 < n := Nat.div_lt_self (by omega) (by omega)
      have hdiv : n / 10 < f := by omega
      rw [digitsValAux_append]
      rw [ih (n / 10) hdiv acc]
      simp only [digitsValAux, (digChar_facts (n % 10) (by omega)).1]
      simp [pow_succ]
      have hmod := Nat.div_add_mod n 10
      ring_nf
      omega

lemma natDigsF_ne_nil : ∀ f n, n < f → natDigsF f n ≠ [] := by
  intro f
  induction f with
  | zero => intro n h; omega
  | succ f ih =>
    intro n h
    rw [natDigsF]
    by_cases h10 : n < 10
    · rw [if_pos h10]; simp
    · rw [if_neg h10]
      have : n / 10 < f := by
        have := Nat.div_lt_self (show 0 < n by omega) (show 1 < 10 by omega)
        omega
      simp [ih (n / 10) this]

lemma natDigsF_chars : ∀ f n, n < f → ∀ c ∈ natDigsF f n, ∃ d, d < 10 ∧ c = digChar d := by
  intro f
  induction f with
  | zero => intro n h; omega
  | succ f ih =>
    intro n h c hc
    rw [natDigsF] at hc
    by_cases h10 : n < 10
    · rw [if_pos h10] at hc
      simp at hc
      exact ⟨n, h10, hc⟩
    · rw [if_neg h10] at hc
      have : n / 10 < f := by
        have := Nat.div_lt_self (show 0 < n by omega) (show 1 < 10 by omega)
        omega
      rcases List.mem_append.mp hc with hc1 | hc2
      · exact ih (n / 10) this c hc1
      · simp at hc2
        exact ⟨n % 10, by omega, hc2⟩

lemma natChars_ne_nil (n : Nat) : natChars n ≠ [] := natDigsF_ne_nil (n + 1) n (by omega)

lemma natChars_chars (n : Nat) : ∀ c ∈ natChars n, ∃ d, d < 10 ∧ c = digChar d :=
  natDigsF_chars (n + 1) n (by omega)

lemma digitsVal_natChars (n : Nat) : digitsVal (natChars n) = some n := by
  match hl : natChars n with
  | [] => exact absurd hl (natChars_ne_nil n)
  | c :: cs =>
    rw [digitsVal, ← hl]
    have := natDigsF_ok (n + 1) n (by omega) 0
    rw [natChars]
    rw [this]
    simp

lemma natChars_head_not_space (n : Nat) :
    ∀ c, (natChars n).head? = some c → pySpace c = false := by
  intro c hc
  match hl : natChars n with
  | [] => rw [hl] at hc; exact Option.noConfusion hc
  | x :: xs =>
    rw [hl] at hc
    have hcx : x = c := by simpa using hc
    subst hcx
    have hmem : x ∈ natChars n := by rw [hl]; simp
    obtain ⟨d, hd, rfl⟩ := natChars_chars n x hmem
    exact (digChar_facts d hd).2.1

lemma pyStrip_count_line (n : Nat) : pyStrip (natChars n ++ ['\n']) = natChars n := by
  rw [pyStrip]
  have h1 : dropLeadWs (natChars n ++ ['\n']) = natChars n ++ ['\n'] := by
    apply dropLeadWs_eq_self
    intro c hc
    match hl : natChars n with
    | [] => exact absurd hl (natChars_ne_nil n)
    | x :: xs =>
      rw [hl, List.cons_append] at hc
      simp at hc
      apply natChars_head_not_space n
      rw [hl, hc]
      rfl
  rw [h1, dropTrailWs, List.reverse_append]
  show (List.dropWhile pySpace ('\n' :: (natChars n).reverse)).reverse = natChars n
  rw [List.dropWhile_cons]
  simp only [show pySpace '\n' = true from rfl, if_true]
  have h2 : List.dropWhile pySpace (natChars n).reverse = (natChars n).reverse := by
    match hr : (natChars n).reverse with
    | [] => rfl
    | x :: xs =>
      rw [List.dropWhile_cons]
      have hx : x ∈ natChars n := by
        rw [← List.mem_reverse, hr]; simp
      obtain ⟨d, hd, rfl⟩ := natChars_chars n x hx
      rw [(digChar_facts d hd).2.1]
      simp
  rw [h2, List.reverse_reverse]

lemma pyInt_count_line (n : Nat) : pyInt (natChars n ++ ['\n']) = some (n : Int) := by
  rw [pyInt, pyStrip_count_line]
  match hl : natChars n with
  | [] => exact absurd hl (natChars_ne_nil n)
  | c :: cs =>
    have hc : c ∈ natChars n := by rw [hl]; simp
    obtain ⟨d, hd, rfl⟩ := natChars_chars n c hc
    rw [pyIntAux]
    rw [if_neg (digChar_facts d hd).2.2.1, if_neg (digChar_facts d hd).2.2.2]
    rw [← hl, digitsVal_natChars]
    rfl

-- membership in joins
lemma mem_joinWith (sep : List Char) :
    ∀ (toks : List (List Char)) (x : Char), x ∈ joinWith sep toks →
      (∃ t ∈ toks, x ∈ t) ∨ x ∈ sep
  | [], x, hx => absurd hx (List.not_mem_nil x)
  | [t], x, hx => Or.inl ⟨t, by simp, hx⟩
  | t :: t2 :: ts, x, hx => by
    rw [joinWith] at hx
    rcases List.mem_append.mp hx with hx1 | hx2
    · rcases List.mem_append.mp hx1 with hx3 | hx4
      · exact Or.inl ⟨t, by simp, hx3⟩
      · exact Or.inr hx4
    · rcases mem_joinWith sep (t2 :: ts) x hx2 with ⟨t3, ht3, hxt3⟩ | hsep
      · exact Or.inl ⟨t3, by simp [ht3], hxt3⟩
      · exact Or.inr hsep

lemma tfChars_ne_nil (b : Bool) : tfChars b ≠ [] := by cases b <;> simp [tfChars]

lemma tfChars_mem (b : Bool) (x : Char) (hx : x ∈ tfChars b) : x = 'T' ∨ x = 'F' := by
  cases b <;> simp [tfChars] at hx <;> simp [hx]

lemma tfChars_not_space (b : Bool) (x : Char) (hx : x ∈ tfChars b) : pySpace x = false := by
  rcases tfChars_mem b x hx with h | h <;> rw [h] <;> rfl

/-- Characters of the writer's flag string. -/
lemma flags_mem (b1 b2 b3 : Bool) (x : Char)
    (hx : x ∈ joinSp [tfChars b1, tfChars b2, tfChars b3]) :
    x = 'T' ∨ x = 'F' ∨ x = ' ' := by
  rcases mem_joinWith [' '] _ x hx with ⟨t, ht, hxt⟩ | hsep
  · simp only [List.mem_cons, List.not_mem_nil, or_false] at ht
    rcases ht with h | h | h <;> subst h <;>
      (rcases tfChars_mem _ x hxt with h2 | h2 <;> simp [h2])
  · simp at hsep
    simp [hsep]

/-- The pbc flags a reader extracts from a writer-produced comment line:
whatever follows the flags, the first quote closes them and the three
tokens map back to the original booleans. -/
lemma pbcOfComment_dump (b1 b2 b3 : Bool) (tail : List Char) :
    pbcOfComment (pbcPart (b1, b2, b3) ++ tail) = [b1, b2, b3] := by
  have hshape : pbcPart (b1, b2, b3) ++ tail
      = ('p' :: "bc=\"".data) ++
        ((joinSp [tfChars b1, tfChars b2, tfChars b3] ++ ['"']) ++ (' ' :: tail)) := by
    rw [pbcPart]
    show pbcMarker ++ joinSp [tfChars b1, tfChars b2, tfChars b3] ++ "\" ".data ++ tail = _
    rw [show pbcMarker = 'p' :: "bc=\"".data from rfl]
    simp [List.append_assoc]
  have hfind : findSub pbcMarker (pbcPart (b1, b2, b3) ++ tail)
      = some ([], (joinSp [tfChars b1, tfChars b2, tfChars b3] ++ ['"']) ++ (' ' :: tail)) := by
    rw [hshape]
    exact findSub_self_append 'p' "bc=\"".data _
  have hsub : hasSub pbcMarker (pbcPart (b1, b2, b3) ++ tail) = true := by
    rw [hasSub, hfind]
    rfl
  rw [pbcOfComment, if_pos hsub, pbcTokens, hfind]
  show List.map (fun t => t == ['T'])
    (wsTok (pyStrip (splitIdx0 ['"'] (splitIdx0 pbcMarker
      ((joinSp [tfChars b1, tfChars b2, tfChars b3] ++ ['"']) ++ (' ' :: tail)))))) = [b1, b2, b3]
  have hskip : splitIdx0 pbcMarker
      ((joinSp [tfChars b1, tfChars b2, tfChars b3] ++ ['"']) ++ (' ' :: tail))
      = (joinSp [tfChars b1, tfChars b2, tfChars b3] ++ ['"']) ++
        splitIdx0 pbcMarker (' ' :: tail) := by
    rw [show pbcMarker = 'p' :: "bc=\"".data from rfl]
    apply splitIdx0_skip
    intro x hx
    rcases List.mem_append.mp hx with hx1 | hx2
    · rcases flags_mem b1 b2 b3 x hx1 with h | h | h <;> simp [h]
    · simp at hx2
      simp [hx2]
  rw [hskip, List.append_assoc]
  have hquote : splitIdx0 ['"']
      (joinSp [tfChars b1, tfChars b2, tfChars b3] ++
        (['"'] ++ splitIdx0 pbcMarker (' ' :: tail)))
      = joinSp [tfChars b1, tfChars b2, tfChars b3] := by
    rw [← List.append_assoc]
    apply splitIdx0_of_append
    intro x hx
    rcases flags_mem b1 b2 b3 x hx with h | h | h <;> simp [h]
  rw [hquote, wsTok_pyStrip]
  rw [wsTok_joinSp _ (by simp)
    (by
      intro t ht
      simp only [List.mem_cons, List.not_mem_nil, or_false] at ht
      rcases ht with h | h | h <;> subst h <;>
        exact ⟨tfChars_ne_nil _, fun c hc => tfChars_not_space _ c hc⟩)]
  have htf : ∀ b : Bool, (tfChars b == ['T']) = b := by
    intro b; cases b <;> rfl
  simp [htf]

lemma ne_space_of_not_pySpace (c : Char) (h : pySpace c = false) : c ≠ ' ' := by
  intro hc
  subst hc
  exact absurd h (by simp [pySpace])

/-- The lattice string a reader extracts from a writer-produced comment
line is exactly the joined renders. -/
lemma latStrOfComment_dump (pbc : Bool × Bool × Bool) (renders : List (List Char))
    (hr : renders ≠ []) (htok : ∀ t ∈ renders, tokenOk t) :
    latStrOfComment
      (pbcPart pbc ++ ((latMarker ++ joinSp renders ++ "\" ".data) ++ propPlain ++ ['\n']))
      = some (joinSp renders) := by
  obtain ⟨p1, p2, p3⟩ := pbc
  have hpbcML : ∀ x ∈ pbcMarker, x ≠ 'L' := by decide
  have hUL : ∀ x ∈ pbcPart (p1, p2, p3), x ≠ 'L' := by
    intro x hx
    rw [pbcPart] at hx
    rcases List.mem_append.mp hx with hx1 | hx2
    · rcases List.mem_append.mp hx1 with hx3 | hx4
      · exact hpbcML x hx3
      · rcases flags_mem p1 p2 p3 x hx4 with h | h | h <;> simp [h]
    · simp at hx2
      rcases hx2 with h | h <;> simp [h]
  have hpropL : ∀ x ∈ propPlain, x ≠ 'L' := by decide
  have hWL : ∀ x ∈ joinSp renders ++ "\" ".data ++ propPlain ++ ['\n'], x ≠ 'L' := by
    intro x hx
    rcases List.mem_append.mp hx with hx1 | hx2
    · rcases List.mem_append.mp hx1 with hx3 | hx4
      · rcases List.mem_append.mp hx3 with hx5 | hx6
        · rcases mem_joinWith [' '] renders x hx5 with ⟨t, ht, hxt⟩ | hsep
          · exact ((htok t ht).2 x hxt).2.2
          · simp at hsep; simp [hsep]
        · simp at hx6; rcases hx6 with h | h <;> simp [h]
      · exact hpropL x hx4
    · simp at hx2; simp [hx2]
  have hshape : pbcPart (p1, p2, p3) ++ ((latMarker ++ joinSp renders ++ "\" ".data) ++
      propPlain ++ ['\n'])
      = pbcPart (p1, p2, p3) ++ ('L' :: "attice=\"".data) ++
        (joinSp renders ++ "\" ".data ++ propPlain ++ ['\n']) := by
    rw [show latMarker = 'L' :: "attice=\"".data from rfl]
    simp [List.append_assoc]
  have hfindL : findSub latMarker
      (pbcPart (p1, p2, p3) ++ ((latMarker ++ joinSp renders ++ "\" ".data) ++
        propPlain ++ ['\n']))
      = some (pbcPart (p1, p2, p3),
          joinSp renders ++ "\" ".data ++ propPlain ++ ['\n']) := by
    rw [hshape, show latMarker = 'L' :: "attice=\"".data from rfl]
    exact findSub_append 'L' _ _ _ hUL
  rw [latStrOfComment, hfindL]
  show some (pyStrip (splitIdx0 propMarker (splitIdx0 latMarker
    (joinSp renders ++ "\" ".data ++ propPlain ++ ['\n'])))) = some (joinSp renders)
  have hnoL : splitIdx0 latMarker (joinSp renders ++ "\" ".data ++ propPlain ++ ['\n'])
      = joinSp renders ++ "\" ".data ++ propPlain ++ ['\n'] := by
    rw [show latMarker = 'L' :: "attice=\"".data from rfl]
    exact splitIdx0_of_none _ _ (findSub_none_of_head _ _ _ hWL)
  rw [hnoL]
  have hconc : "\" ".data ++ propPlain
      = ('"' :: " Properties=".data) ++ "species:S:1:pos:R:3:mass:R:1".data := by decide
  have hprop : joinSp renders ++ "\" ".data ++ propPlain ++ ['\n']
      = joinSp renders ++ ('"' :: " Properties=".data) ++
        ("species:S:1:pos:R:3:mass:R:1".data ++ ['\n']) := by
    calc joinSp renders ++ "\" ".data ++ propPlain ++ ['\n']
        = joinSp renders ++ ("\" ".data ++ propPlain) ++ ['\n'] := by
          simp [List.append_assoc]
      _ = joinSp renders ++ (('"' :: " Properties=".data) ++
            "species:S:1:pos:R:3:mass:R:1".data) ++ ['\n'] := by rw [hconc]
      _ = joinSp renders ++ ('"' :: " Properties=".data) ++
            ("species:S:1:pos:R:3:mass:R:1".data ++ ['\n']) := by
          simp [List.append_assoc]
  have hcut : splitIdx0 propMarker (joinSp renders ++ "\" ".data ++ propPlain ++ ['\n'])
      = joinSp renders := by
    rw [hprop, show propMarker = '"' :: " Properties=".data from rfl]
    apply splitIdx0_of_append
    intro x hx
    rcases mem_joinWith [' '] renders x hx with ⟨t, ht, hxt⟩ | hsep
    · exact ((htok t ht).2 x hxt).2.1
    · simp at hsep; simp [hsep]
  rw [hcut]
  match renders, hr with
  | r0 :: rs, _ =>
    have h0 : r0 ≠ [] := (htok r0 (by simp)).1
    rw [pyStrip_eq_self]
    · intro c hc
      rw [joinSp_head? r0 rs h0] at hc
      have hcr : c ∈ r0 := by
        match r0, h0 with
        | x :: xs, _ => simp at hc; simp [hc]
      exact ((htok r0 (by simp)).2 c hcr).1
    · intro c hc
      have hl0 : ∃ t0, (r0 :: rs).getLast? = some t0 := by
        have := List.getLast?_isSome (l := r0 :: rs)
        rcases hgl : (r0 :: rs).getLast? with _ | t0
        · rw [hgl] at this; simp at this
        · exact ⟨t0, rfl⟩
      obtain ⟨t0, ht0⟩ := hl0
      have htmem : t0 ∈ r0 :: rs := List.mem_of_mem_getLast? ht0
      rw [joinSp_getLast? (r0 :: rs) (fun t ht => (htok t ht).1) t0 ht0] at hc
      have hct : c ∈ t0 := List.mem_of_mem_getLast? hc
      exact ((htok t0 htmem).2 c hct).1

lemma mapMO_rows (parseF : List Char → Option ℚ) (strRepr : ℚ → List Char) :
    ∀ qs : List ℚ, (∀ q ∈ qs, tokenOk (strRepr q)) →
      (∀ q ∈ qs, parseF (strRepr q) = some q) →
      mapMO (fun row => mapMO parseF (wsTok row)) (qs.map strRepr)
        = some (qs.map fun q => [q]) := by
  intro qs
  induction qs with
  | nil => intro _ _; rfl
  | cons q qs2 ih =>
    intro htok hparse
    rw [List.map_cons, mapMO, wsTok]
    rw [wsTokAux_token_only (strRepr q) (htok q (by simp)).1
      (fun c hc => ((htok q (by simp)).2 c hc).1)]
    simp only [mapMO, hparse q (by simp)]
    rw [ih (fun x hx => htok x (by simp [hx])) (fun x hx => hparse x (by simp [hx]))]
    rfl

/-- Parsing the joined renders back: singleton rows. -/
lemma latRows_dump (parseF : List Char → Option ℚ) (strRepr : ℚ → List Char) (qs : List ℚ)
    (hq : qs ≠ []) (htok : ∀ q ∈ qs, tokenOk (strRepr q))
    (hparse : ∀ q ∈ qs, parseF (strRepr q) = some q) :
    latRows parseF (joinSp (qs.map strRepr)) = some (qs.map fun q => [q]) := by
  rw [latRows]
  rw [pySplit_joinSp _ (by simpa using hq)
    (by
      intro t ht x hx
      rcases List.mem_map.mp ht with ⟨q, hqm, rfl⟩
      exact ne_space_of_not_pySpace x ((htok q hqm).2 x hx).1)]
  exact mapMO_rows parseF strRepr qs htok hparse

lemma wsTokAux_skip_one (c0 : Char) (hc0 : pySpace c0 = true) (rest : List Char) :
    wsTokAux [] (c0 :: rest) = wsTokAux [] rest := by
  rw [wsTokAux, hc0]
  simp

lemma wsTokAux_flush_sp (acc sp : List Char) (hacc : acc ≠ [])
    (hsp : ∀ c ∈ sp, pySpace c = true) (c0 : Char) (hc0 : pySpace c0 = true)
    (rest : List Char) :
    wsTokAux acc (sp ++ c0 :: rest) = acc.reverse :: wsTokAux [] rest := by
  match sp with
  | [] => rw [List.nil_append, wsTokAux_flush acc rest c0 hacc hc0]
  | c :: sp2 =>
    rw [List.cons_append, wsTokAux_flush acc _ c hacc (hsp c (by simp))]
    congr 1
    rw [wsTokAux_skip sp2 (fun x hx => hsp x (by simp [hx])) (c0 :: rest)]
    exact wsTokAux_skip_one c0 hc0 rest

lemma mem_replicate_space (n : Nat) (c : Char) (hc : c ∈ List.replicate n ' ') :
    pySpace c = true := by
  rw [List.eq_of_mem_replicate hc]
  rfl

/-- Tokenizing one writer atom line recovers the five fields. -/
lemma wsTok_atomLine (fmt8 : ℚ → List Char) (a : List Char × (ℚ × ℚ × ℚ) × ℚ)
    (hs1 : a.1 ≠ []) (hs2 : ∀ c ∈ a.1, pySpace c = false)
    (h1 : tokenOk (fmt8 a.2.1.1)) (h2 : tokenOk (fmt8 a.2.1.2.1))
    (h3 : tokenOk (fmt8 a.2.1.2.2)) (h4 : tokenOk (fmt8 a.2.2)) :
    wsTok (atomLine fmt8 a)
      = [a.1, fmt8 a.2.1.1, fmt8 a.2.1.2.1, fmt8 a.2.1.2.2, fmt8 a.2.2] := by
  obtain ⟨hn1, hc1⟩ := h1
  obtain ⟨hn2, hc2⟩ := h2
  obtain ⟨hn3, hc3⟩ := h3
  obtain ⟨hn4, hc4⟩ := h4
  rw [atomLine, pad2, pad15, pad15, pad15, pad15, wsTok]
  simp only [List.cons_append, List.append_assoc, List.singleton_append]
  rw [wsTokAux_token a.1 hs2 []]
  rw [List.append_nil]
  rw [wsTokAux_flush_sp a.1.reverse _ (by simpa using hs1)
    (mem_replicate_space _) ' ' rfl]
  rw [List.reverse_reverse]
  simp only [List.nil_append]
  rw [wsTokAux_skip _ (mem_replicate_space _)]
  rw [wsTokAux_token_sep _ hn1 (fun c hc => (hc1 c hc).1) ' ' rfl]
  rw [wsTokAux_skip _ (mem_replicate_space _)]
  rw [wsTokAux_token_sep _ hn2 (fun c hc => (hc2 c hc).1) ' ' rfl]
  rw [wsTokAux_skip _ (mem_replicate_space _)]
  rw [wsTokAux_token_sep _ hn3 (fun c hc => (hc3 c hc).1) ' ' rfl]
  rw [wsTokAux_skip _ (mem_replicate_space _)]
  rw [wsTokAux_token_sep _ hn4 (fun c hc => (hc4 c hc).1) '\n' rfl]
  rfl

/-- Reading back the writer's atom lines: symbols and rounded positions,
with no leftover lines. -/
lemma parseAtoms_dump (parseF : List Char → Option ℚ) (fmt8 : ℚ → List Char) (rnd : ℚ → ℚ) :
    ∀ atoms : List (List Char × (ℚ × ℚ × ℚ) × ℚ),
      (∀ a ∈ atoms, a.1 ≠ [] ∧ (∀ c ∈ a.1, pySpace c = false) ∧ normalizeSymbol a.1 = a.1) →
      (∀ a ∈ atoms, tokenOk (fmt8 a.2.1.1) ∧ tokenOk (fmt8 a.2.1.2.1) ∧
        tokenOk (fmt8 a.2.1.2.2) ∧ tokenOk (fmt8 a.2.2)) →
      (∀ a ∈ atoms, parseF (fmt8 a.2.1.1) = some (rnd a.2.1.1) ∧
        parseF (fmt8 a.2.1.2.1) = some (rnd a.2.1.2.1) ∧
        parseF (fmt8 a.2.1.2.2) = some (rnd a.2.1.2.2)) →
      parseAtoms parseF atoms.length (atoms.map (atomLine fmt8))
        = .ok (atoms.map (fun a => a.1),
               atoms.map (fun a => (rnd a.2.1.1, rnd a.2.1.2.1, rnd a.2.1.2.2)), [])
  | [], _, _, _ => rfl
  | a :: atoms, hsym, htok, hp => by
    have hw := wsTok_atomLine fmt8 a (hsym a (by simp)).1 (hsym a (by simp)).2.1
      (htok a (by simp)).1 (htok a (by simp)).2.1 (htok a (by simp)).2.2.1
      (htok a (by simp)).2.2.2
    have hrec := parseAtoms_dump parseF fmt8 rnd atoms
      (fun x hx => hsym x (by simp [hx])) (fun x hx => htok x (by simp [hx]))
      (fun x hx => hp x (by simp [hx]))
    simp only [List.length_cons, List.map_cons, parseAtoms, hw, (hp a (by simp)).1,
      (hp a (by simp)).2.1, (hp a (by simp)).2.2, hrec, (hsym a (by simp)).2.2]

lemma readFramesF_nil (parseF : List Char → Option ℚ) (fuel : Nat) :
    readFramesF parseF fuel [] = .ok [] := by
  cases fuel <;> rfl

/-! ## Claim theorems -/

/-- C1. Momentum conservation of the rebalancer: for every parsed restart
record with at least two atoms, all masses positive, a nonzero direction
vector and a valid 1-based target index, the per-axis sum of
`mass * velocity` over all atoms after `set_pka`'s velocity update equals
the per-axis sum before the call, exactly, in real arithmetic. -/
theorem setPka_momentum_conserved (energy : ℝ) (angle : ℝ × ℝ × ℝ) (num : Int)
    (r : RestartRec) (hN : 2 ≤ r.atoms.length)
    (hm : ∀ a ∈ r.atoms, 0 < a.mass) (_hang : angle ≠ (0, 0, 0))
    (hnum : 1 ≤ num ∧ num ≤ (r.atoms.length : Int)) :
    (setPkaVel energy angle num r).map momSum = .ok (momSum r.atoms) := by
  obtain ⟨h1, h2⟩ := hnum
  have hk : (num - 1).toNat < r.atoms.length := by omega
  have hget : dictGet r.atoms (num - 1) = some (r.atoms.get ⟨(num - 1).toNat, hk⟩) := by
    rw [dictGet, dif_pos ⟨by omega, hk⟩]
  simp only [setPkaVel, hget, List.get_eq_getElem, Except.map]
  have hm2 : ∀ a ∈ r.atoms, a.mass ≠ 0 := fun a ha => (hm a ha).ne'
  have hlen : ((r.atoms.length : ℝ) - 1) ≠ 0 := by
    have h3 : (2 : ℝ) ≤ (r.atoms.length : ℝ) := by exact_mod_cast hN
    have h4 : (0 : ℝ) < (r.atoms.length : ℝ) - 1 := by linarith
    exact ne_of_gt h4
  congr 1
  simp only [setVelAt, List.getElem?_map, List.getElem?_eq_getElem hk, Option.map_some',
    List.getElem_map, momSum, Prod.mk.injEq]
  refine ⟨?_, ?_, ?_⟩ <;>
    · rw [List.map_set, List.map_map]
      exact axis_sum r.atoms _ _ hk hm2 hlen _ _ rfl

/-- Witness for C1 at a concrete two-atom record. -/
theorem setPka_momentum_conserved_witness :
    2 ≤ pkaRec2.atoms.length ∧
    (setPkaVel 1 (1, 0, 0) 1 pkaRec2).map momSum = .ok (momSum pkaRec2.atoms) :=
  ⟨by decide,
   setPka_momentum_conserved 1 (1, 0, 0) 1 pkaRec2 (by decide)
     (by
       intro a ha
       simp only [pkaRec2, List.mem_cons, List.not_mem_nil, or_false] at ha
       rcases ha with h | h <;> (rw [h]; exact one_pos))
     (fun h => one_ne_zero (congrArg Prod.fst h))
     ⟨by decide, by decide⟩⟩

/-- C2. Round-trip of the extended-XYZ codec: writing a well-formed
frame to a fresh file and reading it back yields exactly one frame with
the same species sequence, positions rounded at the formatting precision
(the reader sees `rnd x` whenever the external codec satisfies
`parseF (fmt8 x) = some (rnd x)`), the same 3x3 cell matrix (`str`
renderings parse back exactly), and the same periodic flags. -/
theorem dump_read_roundtrip (fmt8 strRepr : ℚ → List Char) (parseF : List Char → Option ℚ)
    (rnd : ℚ → ℚ) (fr : Frame)
    (hsym : ∀ a ∈ fr.atoms, a.1 ≠ [] ∧ (∀ c ∈ a.1, pySpace c = false) ∧
      normalizeSymbol a.1 = a.1)
    (hfmt : ∀ a ∈ fr.atoms, tokenOk (fmt8 a.2.1.1) ∧ tokenOk (fmt8 a.2.1.2.1) ∧
      tokenOk (fmt8 a.2.1.2.2) ∧ tokenOk (fmt8 a.2.2))
    (hpos : ∀ a ∈ fr.atoms, parseF (fmt8 a.2.1.1) = some (rnd a.2.1.1) ∧
      parseF (fmt8 a.2.1.2.1) = some (rnd a.2.1.2.1) ∧
      parseF (fmt8 a.2.1.2.2) = some (rnd a.2.1.2.2))
    (hlat : ∀ q ∈ fr.cellFlat, tokenOk (strRepr q) ∧ parseF (strRepr q) = some q) :
    readXyz parseF (dumpLines fmt8 strRepr fr []) =
      .ok [{ species := fr.atoms.map fun a => a.1,
             positions := fr.atoms.map fun a => (rnd a.2.1.1, rnd a.2.1.2.1, rnd a.2.1.2.2),
             cell := [[fr.cell.1.1, fr.cell.1.2.1, fr.cell.1.2.2],
                      [fr.cell.2.1.1, fr.cell.2.1.2.1, fr.cell.2.1.2.2],
                      [fr.cell.2.2.1, fr.cell.2.2.2.1, fr.cell.2.2.2.2]],
             pbc := [fr.pbc.1, fr.pbc.2.1, fr.pbc.2.2] }] := by
  obtain ⟨atoms, ⟨⟨c11, c12, c13⟩, ⟨c21, c22, c23⟩, ⟨c31, c32, c33⟩⟩, ⟨b1, b2, b3⟩⟩ := fr
  simp only [Frame.cellFlat] at hlat
  have hcomment : pbcPart (b1, b2, b3) ++
      latPart strRepr ⟨atoms, ((c11, c12, c13), (c21, c22, c23), (c31, c32, c33)),
        (b1, b2, b3)⟩ ++ propPlain ++ [] ++ ['\n']
      = pbcPart (b1, b2, b3) ++
        ((latMarker ++
          joinSp ([c11, c12, c13, c21, c22, c23, c31, c32, c33].map strRepr) ++ "\" ".data) ++
          propPlain ++ ['\n']) := by
    rw [latPart, Frame.cellFlat]
    simp [List.append_assoc]
  have hlatok : ∀ t ∈ [c11, c12, c13, c21, c22, c23, c31, c32, c33].map strRepr, tokenOk t := by
    intro t ht
    rcases List.mem_map.mp ht with ⟨q, hq, rfl⟩
    exact (hlat q hq).1
  rw [readXyz, dumpLines]
  simp only [List.length_cons, List.length_map]
  simp only [readFramesF, pyInt_count_line]
  have hcell : cellOfRows ([c11, c12, c13, c21, c22, c23, c31, c32, c33].map fun q => [q])
      = .ok [[c11, c12, c13], [c21, c22, c23], [c31, c32, c33]] := rfl
  simp only [hcomment, pbcOfComment_dump b1 b2 b3,
    latStrOfComment_dump (b1, b2, b3) _ (by simp) hlatok,
    latRows_dump parseF strRepr [c11, c12, c13, c21, c22, c23, c31, c32, c33] (by simp)
      (fun q hq => (hlat q hq).1) (fun q hq => (hlat q hq).2),
    hcell, Int.toNat_natCast,
    parseAtoms_dump parseF fmt8 rnd atoms hsym hfmt hpos, readFramesF_nil]

/-- Witness for C2 at a concrete one-atom frame with the concrete demo
codec (for which parsing a rendering is exact, so `rnd` is the
identity). -/
theorem dump_read_roundtrip_witness :
    readXyz demoParse (dumpLines demoRender demoRender frW []) =
      .ok [{ species := frW.atoms.map fun a => a.1,
             positions := frW.atoms.map fun a => (id a.2.1.1, id a.2.1.2.1, id a.2.1.2.2),
             cell := [[frW.cell.1.1, frW.cell.1.2.1, frW.cell.1.2.2],
                      [frW.cell.2.1.1, frW.cell.2.1.2.1, frW.cell.2.1.2.2],
                      [frW.cell.2.2.1, frW.cell.2.2.2.1, frW.cell.2.2.2.2]],
             pbc := [frW.pbc.1, frW.pbc.2.1, frW.pbc.2.2] }] :=
  dump_read_roundtrip demoRender demoRender demoParse id frW (by decide) (by decide)
    (by decide) (by decide)

/-- C3. Target-atom velocity formula: with at least 2 atoms, positive
target mass, nonnegative energy and nonzero direction, after `set_pka`
the target atom's velocity equals
`sqrt(2*energy/m) * direction_axis / |direction| / 10.18` on each axis
(`pkaV`); consequently its speed is `sqrt(2*energy/m) / 10.18` and the
velocity is a nonnegative multiple of the direction vector. -/
theorem setPka_target_velocity (energy : ℝ) (angle : ℝ × ℝ × ℝ) (num : Int)
    (r : RestartRec) (tgt : PkaAtom) (htgt : dictGet r.atoms (num - 1) = some tgt)
    (_hm : 0 < tgt.mass) (_he : 0 ≤ energy) (hang : angle ≠ (0, 0, 0))
    (_hN : 2 ≤ r.atoms.length) :
    (setPkaVel energy angle num r).map (fun atoms2 => dictGet atoms2 (num - 1))
      = .ok (some { tgt with vel := pkaV energy tgt.mass angle }) ∧
    Real.sqrt ((pkaV energy tgt.mass angle).1 ^ 2 + (pkaV energy tgt.mass angle).2.1 ^ 2 +
        (pkaV energy tgt.mass angle).2.2 ^ 2) = Real.sqrt (2 * energy / tgt.mass) / 10.18 ∧
    ∃ c : ℝ, 0 ≤ c ∧ pkaV energy tgt.mass angle = (c * angle.1, c * angle.2.1, c * angle.2.2) := by
  obtain ⟨a1, a2, a3⟩ := angle
  have hS : 0 < a1 ^ 2 + a2 ^ 2 + a3 ^ 2 := by
    apply sq_triple_pos
    intro hz
    exact hang (by simp [Prod.ext_iff, hz.1, hz.2.1, hz.2.2])
  set sp := Real.sqrt (2 * energy / tgt.mass) with hsp
  set nrm := Real.sqrt (a1 ^ 2 + a2 ^ 2 + a3 ^ 2) with hnrm
  have hnrm0 : (0 : ℝ) < nrm := Real.sqrt_pos.mpr hS
  have hsp0 : 0 ≤ sp := Real.sqrt_nonneg _
  have hc1038 : (0 : ℝ) < 10.18 := by norm_num
  refine ⟨?_, ?_, ?_⟩
  · have hcond : 0 ≤ num - 1 ∧ (num - 1).toNat < r.atoms.length := by
      by_contra hcnd
      rw [dictGet, dif_neg hcnd] at htgt
      exact Option.noConfusion htgt
    have htgt2 : r.atoms.get ⟨(num - 1).toNat, hcond.2⟩ = tgt := by
      rw [dictGet, dif_pos hcond] at htgt
      exact Option.some.inj htgt
    have hk : (num - 1).toNat < r.atoms.length := hcond.2
    simp only [setPkaVel, htgt, Except.map]
    rw [dictGet]
    rw [dif_pos ⟨hcond.1, by
      rw [length_setVelAt]; simpa using hk⟩]
    congr 1
    simp only [setVelAt, List.getElem?_map, List.getElem?_eq_getElem hk, Option.map_some',
      List.get_eq_getElem, List.getElem_set_self, List.getElem_map]
    rw [← htgt2]
    rfl
  · have hnrm2 : nrm ^ 2 = a1 ^ 2 + a2 ^ 2 + a3 ^ 2 := Real.sq_sqrt hS.le
    have key : (sp * a1 / nrm / 10.18) ^ 2 + (sp * a2 / nrm / 10.18) ^ 2 +
        (sp * a3 / nrm / 10.18) ^ 2 = (sp / 10.18) ^ 2 := by
      calc (sp * a1 / nrm / 10.18) ^ 2 + (sp * a2 / nrm / 10.18) ^ 2 + (sp * a3 / nrm / 10.18) ^ 2
          = sp ^ 2 * (a1 ^ 2 + a2 ^ 2 + a3 ^ 2) / (nrm ^ 2 * (10.18 : ℝ) ^ 2) := by ring
        _ = (a1 ^ 2 + a2 ^ 2 + a3 ^ 2) * sp ^ 2
              / ((a1 ^ 2 + a2 ^ 2 + a3 ^ 2) * (10.18 : ℝ) ^ 2) := by rw [hnrm2]; ring
        _ = sp ^ 2 / (10.18 : ℝ) ^ 2 := mul_div_mul_left _ _ (ne_of_gt hS)
        _ = (sp / 10.18) ^ 2 := (div_pow sp _ 2).symm
    show Real.sqrt ((sp * a1 / nrm / 10.18) ^ 2 + (sp * a2 / nrm / 10.18) ^ 2 +
        (sp * a3 / nrm / 10.18) ^ 2) = sp / 10.18
    rw [key, Real.sqrt_sq (div_nonneg hsp0 (le_of_lt hc1038))]
  · refine ⟨sp / nrm / 10.18, div_nonneg (div_nonneg hsp0 (le_of_lt hnrm0)) (le_of_lt hc1038), ?_⟩
    show (sp * a1 / nrm / 10.18, sp * a2 / nrm / 10.18, sp * a3 / nrm / 10.18)
      = (sp / nrm / 10.18 * a1, sp / nrm / 10.18 * a2, sp / nrm / 10.18 * a3)
    refine Prod.ext ?_ (Prod.ext ?_ ?_) <;> (show _ = _; ring)

/-- Witness for C3 at a concrete two-atom record, target index 1,
energy 1, direction (1,0,0). -/
theorem setPka_target_velocity_witness :
    (setPkaVel 1 (1, 0, 0) 1 pkaRec2).map (fun atoms2 => dictGet atoms2 (1 - 1))
      = .ok (some { pkaAtomA with vel := pkaV 1 pkaAtomA.mass (1, 0, 0) }) ∧
    Real.sqrt ((pkaV 1 pkaAtomA.mass (1, 0, 0)).1 ^ 2 +
        (pkaV 1 pkaAtomA.mass (1, 0, 0)).2.1 ^ 2 +
        (pkaV 1 pkaAtomA.mass (1, 0, 0)).2.2 ^ 2)
      = Real.sqrt (2 * 1 / pkaAtomA.mass) / 10.18 ∧
    ∃ c : ℝ, 0 ≤ c ∧ pkaV 1 pkaAtomA.mass (1, 0, 0) = (c * 1, c * 0, c * 0) :=
  setPka_target_velocity 1 (1, 0, 0) 1 pkaRec2 pkaAtomA rfl one_pos zero_le_one
    (fun h => one_ne_zero (congrArg Prod.fst h)) (by decide)

/-- C4. Grouping classification of `group_xyz`: against box bounds
`[a,b,c]`/`[d,e,f]` the emitted tag is 0 exactly when some coordinate is
below the minimum, 1 exactly when no coordinate is below the minimum and
some coordinate is at or above the maximum, and 2 otherwise; the
min-bound check wins over the max-bound check.  The spec's four concrete
examples are included. -/
theorem group_xyz_tag_classification (p : ℚ × ℚ × ℚ) (a b c d e f : ℚ) :
    (groupLineTag p [a, b, c] [d, e, f] = .ok 0 ↔ p.1 < a ∨ p.2.1 < b ∨ p.2.2 < c) ∧
    (groupLineTag p [a, b, c] [d, e, f] = .ok 1 ↔
      ¬(p.1 < a ∨ p.2.1 < b ∨ p.2.2 < c) ∧ (d ≤ p.1 ∨ e ≤ p.2.1 ∨ f ≤ p.2.2)) ∧
    (groupLineTag p [a, b, c] [d, e, f] = .ok 2 ↔
      ¬(p.1 < a ∨ p.2.1 < b ∨ p.2.2 < c) ∧ ¬(d ≤ p.1 ∨ e ≤ p.2.1 ∨ f ≤ p.2.2)) ∧
    (groupLineTag (-1, 5, 5) [0, 0, 0] [10, 10, 10] = .ok 0 ∧
     groupLineTag (11, 5, 5) [0, 0, 0] [10, 10, 10] = .ok 1 ∧
     groupLineTag (5, 5, 5) [0, 0, 0] [10, 10, 10] = .ok 2 ∧
     groupLineTag (-1, 11, 5) [0, 0, 0] [10, 10, 10] = .ok 0) := by
  refine ⟨?_, ?_, ?_, rfl, rfl, rfl, rfl⟩ <;>
    · simp only [groupLineTag, List.getElem?_cons_zero, List.getElem?_cons_succ]
      split_ifs <;> simp_all

/-- C5 counterexample: on a one-atom record the call completes and
produces output (`isOk`), contradicting the claim that a division-by-zero
error is raised and no output is produced.  In the source the delta
numerators are NumPy float64 values, so the `/(N - 1)` division by zero
warns and yields inf/NaN instead of raising `ZeroDivisionError`. -/
theorem setPka_single_atom_completes :
    (setPka (fun _ => ['0']) 1 (1, 0, 0) 1 pkaRec1 true).isOk = true := rfl

/-- C5 amended: with exactly one atom, `set_pka` does not raise; the
division by zero happens in NumPy float arithmetic (inf/NaN plus a
warning), the junk deltas only enter the single atom's velocity, which is
then overwritten with the computed target triple, and serialized output
is produced.  The Lean junk value for division by zero differs from
NumPy's, but both are discarded by the overwrite, so the final record
below is the one the source produces. -/
theorem setPka_single_atom_amended (strReprR : ℝ → List Char) (energy : ℝ)
    (angle : ℝ × ℝ × ℝ) (hdr bx : List Char) (a : PkaAtom) (g : Bool) :
    setPkaVel energy angle 1 ⟨hdr, bx, [a]⟩ =
      .ok [{ a with vel := pkaV energy a.mass angle }] ∧
    (setPka strReprR energy angle 1 ⟨hdr, bx, [a]⟩ g).isOk = true := ⟨rfl, rfl⟩

/-- C6. Rebalancer serialization format: the output of a successful
`set_pka` call is the header line and box line unchanged, followed by one
record per atom in order — the original five leading fields joined by two
spaces, the velocity triple, and the group tag characters — where each
record additionally ends in `' \n'` exactly when `is_group` is true and
ends without that suffix when it is false. -/
theorem setPka_serial_layout (strReprR : ℝ → List Char) (r : RestartRec)
    (atoms : List PkaAtom) :
    setPkaSerial strReprR r atoms true =
      r.header ++ r.box ++ (atoms.map fun a => pkaLine strReprR a ++ [' ', '\n']).flatten ∧
    setPkaSerial strReprR r atoms false =
      r.header ++ r.box ++ (atoms.map fun a => pkaLine strReprR a).flatten := by
  have hfun : (fun (acc : List Char) (a : PkaAtom) => acc ++ pkaLine strReprR a ++ [' ', '\n'])
      = fun acc a => acc ++ (pkaLine strReprR a ++ [' ', '\n']) := by
    funext acc a; rw [List.append_assoc]
  constructor
  · simp only [setPkaSerial, if_true, hfun]
    rw [foldl_append_eq_flatten, List.append_assoc]
  · simp only [setPkaSerial, Bool.false_eq_true, if_false]
    rw [foldl_append_eq_flatten, List.append_assoc]

/-- C7. Species normalization on read: `read_xyz` normalizes the first
token of an atom line with `lower().capitalize()`, so any two spellings
of a symbol that agree up to letter case parse identically, and the
inputs `FE`, `fe`, `Fe` all yield `Fe` through the reader's atom-line
parser. -/
theorem read_xyz_species_normalization :
    (∀ s t : List Char, pyLower s = pyLower t → normalizeSymbol s = normalizeSymbol t) ∧
    parseAtoms demoParse 1 ["FE 0 0 0".data] = .ok (["Fe".data], [(0, 0, 0)], []) ∧
    parseAtoms demoParse 1 ["fe 0 0 0".data] = .ok (["Fe".data], [(0, 0, 0)], []) ∧
    parseAtoms demoParse 1 ["Fe 0 0 0".data] = .ok (["Fe".data], [(0, 0, 0)], []) :=
  ⟨fun s t h => by rw [normalizeSymbol, h, normalizeSymbol], rfl, rfl, rfl⟩

/-- Witness for C7: `FE` and `fe` agree up to case, hence normalize to
the same symbol. -/
theorem read_xyz_species_normalization_witness :
    pyLower "FE".data = pyLower "fe".data ∧
    normalizeSymbol "FE".data = normalizeSymbol "fe".data :=
  ⟨by decide, read_xyz_species_normalization.1 "FE".data "fe".data (by decide)⟩

/-- C8. Default periodicity on read: when a frame parses successfully,
its periodic flags are all true when the comment line lacks the `pbc="`
substring, and otherwise each flag is precisely whether its token equals
`T`. -/
theorem read_xyz_pbc_default (parseF : List Char → Option ℚ) (c comment : List Char)
    (rest : List (List Char)) (fr : ReadFrame) (frames : List ReadFrame)
    (hok : readXyz parseF (c :: comment :: rest) = .ok (fr :: frames)) :
    (hasSub pbcMarker comment = false → fr.pbc = [true, true, true]) ∧
    (hasSub pbcMarker comment = true →
      fr.pbc = (pbcTokens comment).map fun t => decide (t = ['T'])) := by
  have hpbc : fr.pbc = pbcOfComment comment :=
    readFramesF_ok_head_pbc parseF (rest.length + 2) c comment rest fr frames hok
  constructor
  · intro habs
    rw [hpbc, pbcOfComment, habs]
    simp
  · intro hpres
    rw [hpbc, pbcOfComment, hpres, if_pos rfl]
    apply List.map_congr_left
    intro t _
    by_cases h : t = ['T'] <;> simp [h]

/-- Witness for C8: a comment without the marker gives all-periodic
flags; one with `pbc="T F T"` gives token-wise flags. -/
theorem read_xyz_pbc_default_witness :
    readXyz demoParse ["0\n".data, commentA] = .ok [frA] ∧
    frA.pbc = [true, true, true] ∧
    readXyz demoParse ["0\n".data, commentB] = .ok [frB] ∧
    frB.pbc = (pbcTokens commentB).map fun t => decide (t = ['T']) :=
  ⟨rfl, (read_xyz_pbc_default demoParse "0\n".data commentA [] frA [] rfl).1 rfl,
   rfl, (read_xyz_pbc_default demoParse "0\n".data commentB [] frB [] rfl).2 rfl⟩

/-- C9. Mandatory lattice on read: when the leading atom-count line is
malformed or the comment line lacks the `Lattice="` marker, `read_xyz`
fails with a parse error instead of returning frames. -/
theorem read_xyz_requires_lattice (parseF : List Char → Option ℚ) (c comment : List Char)
    (rest : List (List Char)) (h : pyInt c = none ∨ hasSub latMarker comment = false) :
    (readXyz parseF (c :: comment :: rest)).isOk = false := by
  rw [readXyz]
  rcases h with h | h
  · simp [readFramesF, h, Except.isOk, Except.toBool]
  · have hf : findSub latMarker comment = none := by
      rw [hasSub] at h
      exact Option.not_isSome_iff_eq_none.mp (by simp [h])
    cases hpi : pyInt c with
    | none => simp [readFramesF, hpi, Except.isOk, Except.toBool]
    | some n => simp [readFramesF, hpi, latStrOfComment, hf, Except.isOk, Except.toBool]

/-- Witness for C9: a comment line with no `Lattice="` marker makes the
read fail. -/
theorem read_xyz_requires_lattice_witness :
    (pyInt "2 atoms\n".data = none ∨ hasSub latMarker "no lattice here\n".data = false) ∧
    (readXyz demoParse ["2 atoms\n".data, "no lattice here\n".data]).isOk = false :=
  ⟨Or.inr (by decide),
   read_xyz_requires_lattice demoParse "2 atoms\n".data "no lattice here\n".data []
     (Or.inr (by decide))⟩

/-- C10. Calling `group_xyz` with the default empty box bounds fails with
an `IndexError` for every frame with at least one atom, after the
output file has been truncated by `open(..., 'w')` but before any content
is written. -/
theorem group_xyz_default_bounds_fail (fmt8 strRepr : ℚ → List Char) (fr : Frame)
    (h : fr.atoms ≠ []) :
    groupXyzOut fmt8 strRepr fr [] [] = .error .indexError ∧
    groupXyzRun fmt8 strRepr fr [] [] = [FileOp.truncate] := by
  match hfr : fr.atoms with
  | [] => exact absurd hfr h
  | a :: rest =>
    have h1 : groupAtomLine fmt8 [] [] a = .error .indexError := rfl
    have h2 : groupXyzOut fmt8 strRepr fr [] [] = .error .indexError := by
      simp [groupXyzOut, hfr, mapME, h1]
    exact ⟨h2, by simp [groupXyzRun, h2]⟩

/-- Witness for C10 at a one-atom frame. -/
theorem group_xyz_default_bounds_fail_witness :
    frW.atoms ≠ [] ∧ groupXyzRun demoRender demoRender frW [] [] = [FileOp.truncate] :=
  ⟨by decide, (group_xyz_default_bounds_fail demoRender demoRender frW (by decide)).2⟩

end Wizard
